import Mathlib

/-!
Verification of the scheduling and itinerary-generation core of the
Personal-AI-Agent repository (src/main.py).

The Python program is shallowly embedded: `datetime.datetime` values become
the `DateTime` structure (naive calendar instants; the program never uses
seconds or time zones, and `strptime` produces zero seconds), `strptime` with
the two fixed patterns `"%Y-%m-%d %H:%M"` / `"%Y-%m-%d"` becomes
`parseDateTime` / `parseDate` (mirroring CPython's `_strptime` regexes:
`%Y` is exactly four digits, `%m`/`%d`/`%H`/`%M` are one or two digits within
range, and the `datetime` constructor's day-of-month/year validation),
`strftime("%Y-%m-%d")` becomes `formatDate` (zero-padded fields, as in the
documented `%Y`/`%m`/`%d` format codes), and the mutable `PersonalAIAgent`
object becomes the `AgentState` structure threaded through each method.
A raised Python exception is an `Except.error`; since an exception leaves
`self` with whatever mutations already happened, each method returns the
(possibly mutated) state alongside its `Except` result.
-/

namespace PersonalAgent

/-- Naive calendar instant: the fields of a Python `datetime` used by the
program (seconds are always zero and are omitted). -/
structure DateTime where
  year : Nat
  month : Nat
  day : Nat
  hour : Nat
  minute : Nat
deriving DecidableEq, Repr

/-- Gregorian leap-year test, as in `datetime._is_leap`:
`year % 4 == 0 and (year % 100 != 0 or year % 400 == 0)`. -/
def isLeap (y : Nat) : Bool :=
  y % 4 == 0 && (y % 100 != 0 || y % 400 == 0)

/-- Length of month `m` (1–12) given the leap flag, as in `datetime`'s
`_DAYS_IN_MONTH` table. -/
def monthLen (leap : Bool) (m : Nat) : Nat :=
  match m with
  | 1 => 31
  | 2 => if leap then 29 else 28
  | 3 => 31
  | 4 => 30
  | 5 => 31
  | 6 => 30
  | 7 => 31
  | 8 => 31
  | 9 => 30
  | 10 => 31
  | 11 => 30
  | 12 => 31
  | _ => 0

/-- `datetime._days_in_month`. -/
def daysInMonth (y m : Nat) : Nat := monthLen (isLeap y) m

/-- Days in the year strictly before month `m`, as in
`datetime._days_before_month`. -/
def daysBeforeMonth (leap : Bool) : Nat → Nat
  | 0 => 0
  | m + 1 => if m = 0 then 0 else daysBeforeMonth leap m + monthLen leap m

/-- Number of leap years among `1..n` (`n/4 - n/100 + n/400`, written so the
truncated natural subtraction agrees with the integer value). -/
def leapsBefore (n : Nat) : Nat := n / 4 + n / 400 - n / 100

/-- Proleptic-Gregorian ordinal of the instant's date, as in Python
`date.toordinal` (`0001-01-01` is day 1). -/
def DateTime.toOrdinal (d : DateTime) : Nat :=
  365 * (d.year - 1) + leapsBefore (d.year - 1)
    + daysBeforeMonth (isLeap d.year) d.month + d.day

/-- The date components form a constructible Python `date`
(year ≥ 1, month 1–12, day within the month). -/
def DateTime.validDate (d : DateTime) : Prop :=
  1 ≤ d.year ∧ 1 ≤ d.month ∧ d.month ≤ 12 ∧ 1 ≤ d.day ∧
    d.day ≤ daysInMonth d.year d.month

instance (d : DateTime) : Decidable d.validDate := by
  unfold DateTime.validDate; infer_instance

/-- A date-only instant, as produced by `strptime(_, "%Y-%m-%d")`. -/
def DateTime.dateOnly (d : DateTime) : Prop :=
  d.validDate ∧ d.hour = 0 ∧ d.minute = 0

instance (d : DateTime) : Decidable d.dateOnly := by
  unfold DateTime.dateOnly; infer_instance

/-- Python `datetime` strict comparison: lexicographic on the components. -/
def DateTime.lt (a b : DateTime) : Prop :=
  a.year < b.year ∨ (a.year = b.year ∧
    (a.month < b.month ∨ (a.month = b.month ∧
      (a.day < b.day ∨ (a.day = b.day ∧
        (a.hour < b.hour ∨ (a.hour = b.hour ∧ a.minute < b.minute)))))))

/-- Python `datetime` non-strict comparison. -/
def DateTime.le (a b : DateTime) : Prop := DateTime.lt a b ∨ a = b

instance (a b : DateTime) : Decidable (DateTime.lt a b) := by
  unfold DateTime.lt; infer_instance

instance (a b : DateTime) : Decidable (DateTime.le a b) := by
  unfold DateTime.le; infer_instance

/-- `current_date + datetime.timedelta(days=1)`: the calendar successor of
the date part, time of day unchanged. -/
def nextDay (d : DateTime) : DateTime :=
  if d.day < daysInMonth d.year d.month then { d with day := d.day + 1 }
  else if d.month < 12 then { d with month := d.month + 1, day := 1 }
  else { d with year := d.year + 1, month := 1, day := 1 }

/-! ### Decimal digit strings -/

/-- The decimal digit character for `n ≤ 9`. -/
def digitChar (n : Nat) : Char :=
  match n with
  | 0 => '0'
  | 1 => '1'
  | 2 => '2'
  | 3 => '3'
  | 4 => '4'
  | 5 => '5'
  | 6 => '6'
  | 7 => '7'
  | 8 => '8'
  | _ => '9'

/-- Numeric value of a digit character. -/
def charVal (c : Char) : Nat := c.toNat - 48

/-- Decimal digits, most significant first; structural recursion on a fuel
bound so the definition evaluates inside the kernel. -/
def natDigitsAux : Nat → Nat → List Char
  | 0, _ => []
  | fuel + 1, n =>
    if n < 10 then [digitChar n]
    else natDigitsAux fuel (n / 10) ++ [digitChar (n % 10)]

/-- Decimal digits of `n`, most significant first. -/
def natDigits (n : Nat) : List Char := natDigitsAux (n + 1) n

/-- Value of a digit string, most significant first. -/
def digitsVal (l : List Char) : Nat :=
  l.foldl (fun acc c => 10 * acc + charVal c) 0

/-- `n` rendered in decimal, left-padded with zeros to width `w`. -/
def padNat (w n : Nat) : List Char :=
  List.replicate (w - (natDigits n).length) '0' ++ natDigits n

/-- `strftime("%Y-%m-%d")` on the character-list level: four-digit year,
two-digit month and day. -/
def formatDateL (d : DateTime) : List Char :=
  padNat 4 d.year ++ '-' :: (padNat 2 d.month ++ '-' :: padNat 2 d.day)

/-- `current_date.strftime("%Y-%m-%d")`. -/
def formatDate (d : DateTime) : String := String.mk (formatDateL d)

/-! ### `strptime` for the two fixed patterns -/

/-- `strptime(text, "%Y-%m-%d")` on the character-list level: `%Y` matches
exactly four digits, `%m` and `%d` one or two digits in range (CPython
`_strptime` regexes), the whole string must be consumed, and the `datetime`
constructor validates year ≥ 1 and the day against the month length. -/
def parseDateL (l : List Char) : Option DateTime :=
  let ys := l.takeWhile Char.isDigit
  let r1 := l.dropWhile Char.isDigit
  if ys.length = 4 then
    match r1 with
    | '-' :: r2 =>
      let ms := r2.takeWhile Char.isDigit
      let r3 := r2.dropWhile Char.isDigit
      if 1 ≤ ms.length ∧ ms.length ≤ 2 then
        match r3 with
        | '-' :: r4 =>
          let ds := r4.takeWhile Char.isDigit
          let r5 := r4.dropWhile Char.isDigit
          if 1 ≤ ds.length ∧ ds.length ≤ 2 ∧ r5 = [] then
            let y := digitsVal ys
            let m := digitsVal ms
            let dd := digitsVal ds
            if 1 ≤ y ∧ 1 ≤ m ∧ m ≤ 12 ∧ 1 ≤ dd ∧ dd ≤ daysInMonth y m then
              some ⟨y, m, dd, 0, 0⟩
            else none
          else none
        | _ => none
      else none
    | _ => none
  else none

/-- `datetime.datetime.strptime(text, "%Y-%m-%d")`. -/
def parseDate (s : String) : Option DateTime := parseDateL s.toList

/-- The `"%H:%M"` tail: hour 0–23 and minute 0–59, each one or two digits. -/
def parseTimeL (l : List Char) : Option (Nat × Nat) :=
  let hs := l.takeWhile Char.isDigit
  let r1 := l.dropWhile Char.isDigit
  if 1 ≤ hs.length ∧ hs.length ≤ 2 ∧ digitsVal hs ≤ 23 then
    match r1 with
    | ':' :: r2 =>
      let ms := r2.takeWhile Char.isDigit
      let r3 := r2.dropWhile Char.isDigit
      if 1 ≤ ms.length ∧ ms.length ≤ 2 ∧ digitsVal ms ≤ 59 ∧ r3 = [] then
        some (digitsVal hs, digitsVal ms)
      else none
    | _ => none
  else none

/-- `strptime(text, "%Y-%m-%d %H:%M")` on the character-list level: date
part, one literal space, time part. -/
def parseDateTimeL (l : List Char) : Option DateTime :=
  let dpart := l.takeWhile (fun c => !(c == ' '))
  let rest := l.dropWhile (fun c => !(c == ' '))
  match rest with
  | ' ' :: tpart =>
    match parseDateL dpart, parseTimeL tpart with
    | some d, some hm => some ⟨d.year, d.month, d.day, hm.1, hm.2⟩
    | _, _ => none
  | _ => none

/-- `datetime.datetime.strptime(text, "%Y-%m-%d %H:%M")`. -/
def parseDateTime (s : String) : Option DateTime := parseDateTimeL s.toList

/-! ### Data model of `main.py` -/

/-- `class TaskPriority(Enum)`. -/
inductive TaskPriority where
  | high
  | medium
  | low
deriving DecidableEq, Repr

/-- `class TaskStatus(Enum)`. -/
inductive TaskStatus where
  | todo
  | inProgress
  | completed
deriving DecidableEq, Repr

/-- `@dataclass class Reminder`. -/
structure Reminder where
  task_id : String
  reminder_time : DateTime
  notification_sent : Bool
  message : String
deriving DecidableEq, Repr

/-- `@dataclass class Task`. -/
structure Task where
  id : String
  title : String
  description : String
  due_date : DateTime
  priority : TaskPriority
  status : TaskStatus
  reminders : List Reminder
deriving DecidableEq, Repr

/-- `@dataclass class TravelDay`. -/
structure TravelDay where
  date : DateTime
  morning : String
  afternoon : String
  evening : String
  notes : Option String
deriving DecidableEq, Repr

/-- `@dataclass class TravelItinerary`; the unstructured hotel/flight dicts
are association lists, as is the per-day activity dict. -/
structure TravelItinerary where
  destination : String
  start_date : DateTime
  end_date : DateTime
  days : List TravelDay
  hotel_info : List (String × String)
  flight_info : List (String × String)
deriving DecidableEq, Repr

/-- The mutable fields of a `PersonalAIAgent` object. -/
structure AgentState where
  user_name : String
  tasks : List Task
  reminders : List Reminder
  travel_itineraries : List TravelItinerary
deriving DecidableEq, Repr

/-- `PersonalAIAgent.__init__`. -/
def initAgent (user_name : String) : AgentState :=
  { user_name := user_name, tasks := [], reminders := [], travel_itineraries := [] }

/-- The exception kinds the embedded methods can raise: `ValueError` from
`strptime` (the spec's `FormatError`), `KeyError` from `TaskPriority[...]`
(the spec's `InvalidPriorityError`), and `KeyError` from a missing activity
slot (the spec's `MissingFieldError`). -/
inductive Err where
  | formatError
  | invalidPriority
  | missingField
deriving DecidableEq, Repr

/-- `priority.upper()`, character-wise (Python's `str.upper`; ASCII case
mapping suffices for the three enum member names). -/
def strUpper (s : String) : String := String.mk (s.toList.map Char.toUpper)

/-- `TaskPriority[priority.upper()]`: `Enum` lookup by member name after
upper-casing; an unknown name raises (here: `Err.invalidPriority`). -/
def parsePriority (p : String) : Option TaskPriority :=
  let u := strUpper p
  if u = "HIGH" then some .high
  else if u = "MEDIUM" then some .medium
  else if u = "LOW" then some .low
  else none

/-! ### Methods

Each method returns its `Except` result together with the state of `self`
afterwards; a raised exception keeps whatever mutations happened before it. -/

/-- `PersonalAIAgent.add_reminder`: parse the time text, construct the
reminder with `notification_sent = False`, append it to `self.reminders`,
return it. -/
def add_reminder (s : AgentState) (task_id reminder_time message : String) :
    Except Err Reminder × AgentState :=
  match parseDateTime reminder_time with
  | none => (.error .formatError, s)
  | some dt =>
    let r : Reminder :=
      { task_id := task_id, reminder_time := dt, notification_sent := false,
        message := message }
    (.ok r, { s with reminders := s.reminders ++ [r] })

/-- The `for reminder_time in reminder_times` loop of
`create_task_with_reminders`: each iteration calls `add_reminder` (which
appends to `self.reminders`) and collects the returned reminder; a parse
failure propagates, keeping the reminders already appended. -/
def addRemindersLoop (s : AgentState) (task_id title due_date : String) :
    List String → Except Err (List Reminder) × AgentState
  | [] => (.ok [], s)
  | rt :: rest =>
    match add_reminder s task_id rt ("Reminder: " ++ title ++ " is due " ++ due_date) with
    | (.error e, s1) => (.error e, s1)
    | (.ok r, s1) =>
      match addRemindersLoop s1 task_id title due_date rest with
      | (.error e, s2) => (.error e, s2)
      | (.ok rs, s2) => (.ok (r :: rs), s2)

/-- `PersonalAIAgent.create_task_with_reminders`: id from the current task
count, parse the due date, run the reminder loop, then build the `Task`
(whose construction looks up `TaskPriority[priority.upper()]` — only after
the reminders were appended) and append it to `self.tasks`. -/
def create_task_with_reminders (s : AgentState)
    (title description due_date priority : String) (reminder_times : List String) :
    Except Err Task × AgentState :=
  let task_id := "task_" ++ toString (s.tasks.length + 1)
  match parseDateTime due_date with
  | none => (.error .formatError, s)
  | some due_date_obj =>
    match addRemindersLoop s task_id title due_date reminder_times with
    | (.error e, s1) => (.error e, s1)
    | (.ok reminders, s1) =>
      match parsePriority priority with
      | none => (.error .invalidPriority, s1)
      | some prio =>
        let task : Task :=
          { id := task_id, title := title, description := description,
            due_date := due_date_obj, priority := prio, status := .todo,
            reminders := reminders }
        (.ok task, { s1 with tasks := s1.tasks ++ [task] })

/-- The default activity dict
`{"morning": "Free time", "afternoon": "Free time", "evening": "Free time"}`. -/
def defaultActivities : List (String × String) :=
  [("morning", "Free time"), ("afternoon", "Free time"), ("evening", "Free time")]

/-- One iteration body of the `while current_date <= end_date_obj` loop:
look up the activity override by the formatted date (defaulting), read the
three required slots (`dict[key]` raises on a missing key) and the optional
notes, build the `TravelDay`. -/
def processDay (activities : List (String × List (String × String)))
    (cur : DateTime) : Except Err TravelDay :=
  let date_str := formatDate cur
  let day_activities := (activities.lookup date_str).getD defaultActivities
  match day_activities.lookup "morning" with
  | none => .error .missingField
  | some m =>
    match day_activities.lookup "afternoon" with
    | none => .error .missingField
    | some a =>
      match day_activities.lookup "evening" with
      | none => .error .missingField
      | some e =>
        .ok { date := cur, morning := m, afternoon := a, evening := e,
              notes := day_activities.lookup "notes" }

/-- The `while current_date <= end_date_obj` loop, with explicit fuel (the
caller passes `end.toOrdinal + 1`, which the lemmas show is enough for any
parsed start date). -/
def buildDays (activities : List (String × List (String × String)))
    (endD : DateTime) : Nat → DateTime → Except Err (List TravelDay)
  | 0, _ => .ok []
  | fuel + 1, cur =>
    if DateTime.le cur endD then
      match processDay activities cur with
      | .error e => .error e
      | .ok td =>
        match buildDays activities endD fuel (nextDay cur) with
        | .error e => .error e
        | .ok rest => .ok (td :: rest)
    else .ok []

/-- `PersonalAIAgent.create_travel_itinerary`: parse both date texts, expand
the range day by day, build the itinerary and append it to
`self.travel_itineraries`. -/
def create_travel_itinerary (s : AgentState) (destination start_date end_date : String)
    (activities : List (String × List (String × String)))
    (hotel_info flight_info : List (String × String)) :
    Except Err TravelItinerary × AgentState :=
  match parseDate start_date with
  | none => (.error .formatError, s)
  | some start_date_obj =>
    match parseDate end_date with
    | none => (.error .formatError, s)
    | some end_date_obj =>
      match buildDays activities end_date_obj (end_date_obj.toOrdinal + 1) start_date_obj with
      | .error e => (.error e, s)
      | .ok days =>
        let itinerary : TravelItinerary :=
          { destination := destination, start_date := start_date_obj,
            end_date := end_date_obj, days := days, hotel_info := hotel_info,
            flight_info := flight_info }
        (.ok itinerary, { s with travel_itineraries := s.travel_itineraries ++ [itinerary] })

/-- The record appended to `upcoming` in `get_upcoming_reminders`. -/
structure UpRecord where
  time : DateTime
  task_title : String
  message : String
deriving DecidableEq, Repr

/-- The `upcoming` list before sorting: reminders in store order, kept when
not yet notified and strictly in the future, joined to the first task with a
matching id (dropped silently when none matches). -/
def upcomingUnsorted (s : AgentState) (now : DateTime) : List UpRecord :=
  s.reminders.filterMap fun r =>
    if r.notification_sent = false ∧ DateTime.lt now r.reminder_time then
      match s.tasks.find? (fun t => t.id == r.task_id) with
      | some t => some { time := r.reminder_time, task_title := t.title, message := r.message }
      | none => none
    else none

/-- The comparison `sorted(upcoming, key=lambda x: x['time'])` sorts by. -/
def recLE (a b : UpRecord) : Prop := DateTime.le a.time b.time

instance : DecidableRel recLE := fun a b => by
  unfold recLE; infer_instance

/-- `PersonalAIAgent.get_upcoming_reminders`; the ambient clock
`datetime.datetime.now()` is passed explicitly as `now`. Python's `sorted`
is a stable sort by the time key, embedded as insertion sort on `recLE`. -/
def get_upcoming_reminders (s : AgentState) (now : DateTime) :
    List UpRecord × AgentState :=
  (List.insertionSort recLE (upcomingUnsorted s now), s)

/-! ### Sequences of store operations

The public operations of `PersonalAIAgent` (the store has no removal
operation); used to state identifier-assignment invariants over whole
sessions. -/

/-- One call to a `PersonalAIAgent` method. -/
inductive AgentOp where
  | addReminder (task_id reminder_time message : String)
  | createTask (title description due_date priority : String)
      (reminder_times : List String)
  | createItinerary (destination start_date end_date : String)
      (activities : List (String × List (String × String)))
      (hotel_info flight_info : List (String × String))
  | queryUpcoming (now : DateTime)

/-- The state of `self` after one method call (whether or not it raised). -/
def applyOp (s : AgentState) : AgentOp → AgentState
  | .addReminder a b c => (add_reminder s a b c).2
  | .createTask a b c d e => (create_task_with_reminders s a b c d e).2
  | .createItinerary a b c d e f => (create_travel_itinerary s a b c d e f).2
  | .queryUpcoming now => (get_upcoming_reminders s now).2

/-- The state after a sequence of method calls. -/
def runOps (s : AgentState) : List AgentOp → AgentState
  | [] => s
  | op :: ops => runOps (applyOp s op) ops

instance : IsTotal UpRecord recLE :=
  ⟨fun a b => by
    unfold recLE DateTime.le DateTime.lt
    rcases a with ⟨⟨y1, m1, d1, h1, mi1⟩, t1, msg1⟩
    rcases b with ⟨⟨y2, m2, d2, h2, mi2⟩, t2, msg2⟩
    simp only [DateTime.mk.injEq]
    omega⟩

instance : IsTrans UpRecord recLE :=
  ⟨fun a b c => by
    unfold recLE DateTime.le DateTime.lt
    rcases a with ⟨⟨y1, m1, d1, h1, mi1⟩, t1, msg1⟩
    rcases b with ⟨⟨y2, m2, d2, h2, mi2⟩, t2, msg2⟩
    rcases c with ⟨⟨y3, m3, d3, h3, mi3⟩, t3, msg3⟩
    simp only [DateTime.mk.injEq]
    omega⟩

/-! ### A concrete session with a task removal

The store itself offers no removal operation, but `self.tasks` is a public
Python list a caller can shrink; removal of the first task is modelled as
`List.drop 1` on the task list. These states exercise identifier assignment
across such a removal. -/

/-- After creating task "A". -/
def c3_s1 : AgentState :=
  (create_task_with_reminders (initAgent "u") "A" "" "2025-02-15 14:00" "HIGH" []).2

/-- After also creating task "B". -/
def c3_s2 : AgentState :=
  (create_task_with_reminders c3_s1 "B" "" "2025-02-15 14:00" "HIGH" []).2

/-- After the first task is removed from the store's task list. -/
def c3_removed : AgentState := { c3_s2 with tasks := c3_s2.tasks.drop 1 }

/-- After creating task "C" post-removal. -/
def c3_s3 : AgentState :=
  (create_task_with_reminders c3_removed "C" "" "2025-02-15 14:00" "HIGH" []).2

end PersonalAgent

namespace PersonalAgent

/-! ## Lemmas: decimal digit strings -/

theorem charVal_digitChar {n : Nat} (h : n ≤ 9) : charVal (digitChar n) = n := by
  interval_cases n <;> decide

theorem digitChar_isDigit (n : Nat) : (digitChar n).isDigit = true := by
  unfold digitChar
  split <;> decide

theorem natDigitsAux_all_digits (fuel n : Nat) :
    ∀ c ∈ natDigitsAux fuel n, c.isDigit = true := by
  induction fuel generalizing n with
  | zero => intro c hc; simp [natDigitsAux] at hc
  | succ fuel ih =>
    intro c hc
    unfold natDigitsAux at hc
    split at hc
    · simp at hc; subst hc; exact digitChar_isDigit n
    · rcases List.mem_append.mp hc with h | h
      · exact ih _ c h
      · simp at h; subst h; exact digitChar_isDigit _

theorem digitsVal_append_singleton (l : List Char) (c : Char) :
    digitsVal (l ++ [c]) = 10 * digitsVal l + charVal c := by
  simp [digitsVal, List.foldl_append]

theorem digitsVal_natDigitsAux {fuel n : Nat} (h : n < 10 ^ fuel) :
    digitsVal (natDigitsAux fuel n) = n := by
  induction fuel generalizing n with
  | zero => simp at h; simp [h, natDigitsAux, digitsVal]
  | succ fuel ih =>
    unfold natDigitsAux
    split
    · rename_i h10
      simp [digitsVal, charVal_digitChar (by omega : n ≤ 9)]
    · rename_i h10
      rw [digitsVal_append_singleton, ih (by rw [pow_succ] at h; omega),
        charVal_digitChar (by omega : n % 10 ≤ 9)]
      omega

theorem digitsVal_natDigits (n : Nat) : digitsVal (natDigits n) = n := by
  have h : n < 10 ^ (n + 1) :=
    lt_of_lt_of_le (Nat.lt_pow_self (by norm_num) n)
      (Nat.pow_le_pow_right (by norm_num) (by omega))
  exact digitsVal_natDigitsAux h

theorem natDigits_all_digits (n : Nat) : ∀ c ∈ natDigits n, c.isDigit = true :=
  natDigitsAux_all_digits _ n

theorem natDigitsAux_length_le {fuel n k : Nat} (hk : 1 ≤ k) (h : n < 10 ^ k) :
    (natDigitsAux fuel n).length ≤ k := by
  induction fuel generalizing n k with
  | zero => simp [natDigitsAux]
  | succ fuel ih =>
    unfold natDigitsAux
    split
    · simpa using hk
    · rename_i h10
      have hk2 : 2 ≤ k := by
        by_contra h2
        have hk1 : k = 1 := by omega
        subst hk1
        simp at h
        omega
      have hpow : 10 ^ k = 10 ^ (k - 1) * 10 := by
        rw [← pow_succ]; congr 1; omega
      have hdiv : n / 10 < 10 ^ (k - 1) := by
        rw [hpow] at h
        omega
      have := @ih (n / 10) (k - 1) (by omega) hdiv
      simp only [List.length_append, List.length_singleton]
      omega

theorem natDigits_length_le {n k : Nat} (hk : 1 ≤ k) (h : n < 10 ^ k) :
    (natDigits n).length ≤ k :=
  natDigitsAux_length_le hk h

theorem natDigitsAux_length_pos {fuel n : Nat} (hf : 1 ≤ fuel) :
    1 ≤ (natDigitsAux fuel n).length := by
  match fuel, hf with
  | fuel + 1, _ =>
    unfold natDigitsAux
    split <;> simp

theorem padNat_length {w n : Nat} (h : (natDigits n).length ≤ w) :
    (padNat w n).length = w := by
  simp [padNat, List.length_append, List.length_replicate]
  omega

theorem padNat_all_digits (w n : Nat) : ∀ c ∈ padNat w n, c.isDigit = true := by
  intro c hc
  rcases List.mem_append.mp hc with h | h
  · have := List.eq_of_mem_replicate h; subst this; decide
  · exact natDigits_all_digits n c h

theorem foldl_replicate_zero (k : Nat) :
    List.foldl (fun acc c => 10 * acc + charVal c) 0 (List.replicate k '0') = 0 := by
  induction k with
  | zero => rfl
  | succ k ih => simpa [List.replicate_succ, charVal] using ih

theorem digitsVal_padNat (w n : Nat) : digitsVal (padNat w n) = digitsVal (natDigits n) := by
  simp [padNat, digitsVal, List.foldl_append, foldl_replicate_zero]

theorem takeWhile_append_of_all {p : Char → Bool} {A : List Char} {x : Char}
    (hA : ∀ c ∈ A, p c = true) (hx : p x = false) (B : List Char) :
    (A ++ x :: B).takeWhile p = A ∧ (A ++ x :: B).dropWhile p = x :: B := by
  induction A with
  | nil => simp [List.takeWhile, List.dropWhile, hx]
  | cons a A ih =>
    have ha : p a = true := hA a (by simp)
    have ih2 := ih (fun c hc => hA c (by simp [hc]))
    simp [List.takeWhile, List.dropWhile, ha, ih2.1, ih2.2]

theorem takeWhile_of_all {p : Char → Bool} {A : List Char}
    (hA : ∀ c ∈ A, p c = true) :
    A.takeWhile p = A ∧ A.dropWhile p = [] := by
  induction A with
  | nil => simp
  | cons a A ih =>
    have ha : p a = true := hA a (by simp)
    have ih2 := ih (fun c hc => hA c (by simp [hc]))
    simp [List.takeWhile, List.dropWhile, ha, ih2.1, ih2.2]

/-! ## Lemmas: the calendar -/

theorem monthLen_bounds (l : Bool) (m : Nat) (h1 : 1 ≤ m) (h2 : m ≤ 12) :
    28 ≤ monthLen l m ∧ monthLen l m ≤ 31 := by
  have hall : ∀ m' < 13, 1 ≤ m' → 28 ≤ monthLen l m' ∧ monthLen l m' ≤ 31 := by
    cases l <;> decide
  exact hall m (by omega) h1

/-! ## Round trip: format then parse (claim C9 groundwork) -/

theorem parseDateL_formatDateL {d : DateTime} (h : d.dateOnly) (hy : d.year ≤ 9999) :
    parseDateL (formatDateL d) = some d := by
  obtain ⟨⟨hy1, hm1, hm2, hd1, hd2⟩, hh, hmin⟩ := h
  have hdim : daysInMonth d.year d.month ≤ 31 :=
    (monthLen_bounds (isLeap d.year) d.month hm1 hm2).2
  have hylen : (natDigits d.year).length ≤ 4 :=
    natDigits_length_le (by omega) (by
      calc d.year < 10000 := by omega
        _ = 10 ^ 4 := by norm_num)
  have hmlen : (natDigits d.month).length ≤ 2 :=
    natDigits_length_le (by omega) (by
      calc d.month < 100 := by omega
        _ = 10 ^ 2 := by norm_num)
  have hdlen : (natDigits d.day).length ≤ 2 :=
    natDigits_length_le (by omega) (by
      calc d.day < 100 := by omega
        _ = 10 ^ 2 := by norm_num)
  have hy4 : (padNat 4 d.year).length = 4 := padNat_length hylen
  have hm2l : (padNat 2 d.month).length = 2 := padNat_length hmlen
  have hd2l : (padNat 2 d.day).length = 2 := padNat_length hdlen
  have t1 := takeWhile_append_of_all (padNat_all_digits 4 d.year)
    (show ('-').isDigit = false by decide)
    (padNat 2 d.month ++ '-' :: padNat 2 d.day)
  have t2 := takeWhile_append_of_all (padNat_all_digits 2 d.month)
    (show ('-').isDigit = false by decide) (padNat 2 d.day)
  have t3 := takeWhile_of_all (padNat_all_digits 2 d.day)
  have vy : digitsVal (padNat 4 d.year) = d.year := by
    rw [digitsVal_padNat, digitsVal_natDigits]
  have vm : digitsVal (padNat 2 d.month) = d.month := by
    rw [digitsVal_padNat, digitsVal_natDigits]
  have vd : digitsVal (padNat 2 d.day) = d.day := by
    rw [digitsVal_padNat, digitsVal_natDigits]
  rcases d with ⟨y, mo, dd, ho, mi⟩
  simp only at hy1 hm1 hm2 hd1 hd2 hh hmin hy hdim vy vm vd
  subst hh hmin
  simp only [formatDateL, parseDateL, t1.1, t1.2, t2.1, t2.2, t3.1, t3.2,
    hy4, hm2l, hd2l, vy, vm, vd]
  simp [hy1, hm1, hm2, hd1, hd2]

/-- C9: for every calendar date (a valid, representable date-only instant),
formatting it to text in the `"YYYY-MM-DD"` format and reparsing that text
with the Time Parsing Helper yields the identical calendar date. -/
theorem claim_C9 (d : DateTime) (h : d.dateOnly) (hy : d.year ≤ 9999) :
    parseDate (formatDate d) = some d :=
  parseDateL_formatDateL h hy

theorem claim_C9_witness :
    DateTime.dateOnly ⟨2025, 3, 15, 0, 0⟩ ∧
      parseDate (formatDate ⟨2025, 3, 15, 0, 0⟩) = some ⟨2025, 3, 15, 0, 0⟩ :=
  ⟨by decide, claim_C9 ⟨2025, 3, 15, 0, 0⟩ (by decide) (by decide)⟩

/-! ## Lemmas: ordinals and the lexicographic `datetime` order -/

theorem isLeap_true_iff (y : Nat) :
    isLeap y = true ↔ (y % 4 = 0 ∧ (y % 100 ≠ 0 ∨ y % 400 = 0)) := by
  simp [isLeap, Bool.and_eq_true, Bool.or_eq_true, beq_iff_eq, bne_iff_ne]

theorem leapsBefore_succ (y : Nat) :
    leapsBefore (y + 1) = leapsBefore y + (if isLeap (y + 1) then 1 else 0) := by
  have h := isLeap_true_iff (y + 1)
  cases hl : isLeap (y + 1) with
  | true =>
    have hp := h.mp hl
    simp only [hl, if_true]
    unfold leapsBefore
    omega
  | false =>
    have hp : ¬(((y + 1) % 4 = 0 ∧ ((y + 1) % 100 ≠ 0 ∨ (y + 1) % 400 = 0))) := by
      intro hc
      rw [h.mpr hc] at hl
      exact Bool.noConfusion hl
    simp only [hl, Bool.false_eq_true, if_false]
    unfold leapsBefore
    omega

theorem dbm_succ (l : Bool) {m : Nat} (h : 1 ≤ m) :
    daysBeforeMonth l (m + 1) = daysBeforeMonth l m + monthLen l m := by
  obtain ⟨k, rfl⟩ : ∃ k, m = k + 1 := ⟨m - 1, by omega⟩
  simp [daysBeforeMonth]

theorem dbm_monthLen_12 (l : Bool) :
    daysBeforeMonth l 12 + monthLen l 12 = 365 + (if l then 1 else 0) := by
  cases l <;> decide

theorem dbm_13 (l : Bool) :
    daysBeforeMonth l 13 = 365 + (if l then 1 else 0) := by
  cases l <;> decide

theorem dbm_mono (l : Bool) {m1 m2 : Nat} (h : m1 ≤ m2) (h2 : m2 ≤ 13) :
    daysBeforeMonth l m1 ≤ daysBeforeMonth l m2 := by
  have hall : ∀ n < 14, ∀ k < 14, k ≤ n →
      daysBeforeMonth l k ≤ daysBeforeMonth l n := by
    cases l <;> decide
  exact hall m2 (by omega) m1 (by omega) h

theorem toOrdinal_nextDay {d : DateTime} (h : d.validDate) :
    (nextDay d).toOrdinal = d.toOrdinal + 1 := by
  obtain ⟨hy1, hm1, hm2, hd1, hd2⟩ := h
  rcases d with ⟨y, mo, dd, ho, mi⟩
  simp only at hy1 hm1 hm2 hd1 hd2
  unfold nextDay
  split
  · simp only [DateTime.toOrdinal]
    omega
  · rename_i hge
    have hge2 : ¬ dd < daysInMonth y mo := hge
    split
    · rename_i hmlt
      have hmlt2 : mo < 12 := hmlt
      have hday : dd = monthLen (isLeap y) mo := by
        unfold daysInMonth at hge2 hd2; omega
      simp only [DateTime.toOrdinal]
      rw [dbm_succ (isLeap y) hm1]
      omega
    · rename_i hmge
      have hmge2 : ¬ mo < 12 := hmge
      have hm12 : mo = 12 := by omega
      subst hm12
      have h31 : monthLen (isLeap y) 12 = 31 := by
        cases isLeap y <;> rfl
      have hday : dd = 31 := by
        unfold daysInMonth at hge2 hd2
        omega
      subst hday
      have hls := leapsBefore_succ (y - 1)
      rw [show y - 1 + 1 = y by omega] at hls
      simp only [DateTime.toOrdinal]
      have h0 : ∀ l, daysBeforeMonth l 1 = 0 := fun l => rfl
      rw [h0]
      cases hL : isLeap y with
      | false =>
        rw [hL] at hls
        simp at hls
        have hv : daysBeforeMonth false 12 = 334 := by decide
        simp only [Nat.add_sub_cancel]
        omega
      | true =>
        rw [hL] at hls
        simp at hls
        have hv : daysBeforeMonth true 12 = 335 := by decide
        simp only [Nat.add_sub_cancel]
        omega

theorem nextDay_dateOnly {d : DateTime} (h : d.dateOnly) : (nextDay d).dateOnly := by
  obtain ⟨⟨hy1, hm1, hm2, hd1, hd2⟩, hh, hmin⟩ := h
  rcases d with ⟨y, mo, dd, ho, mi⟩
  simp only at hy1 hm1 hm2 hd1 hd2 hh hmin
  unfold nextDay DateTime.dateOnly DateTime.validDate
  split
  · rename_i hlt
    have hlt2 : dd < daysInMonth y mo := hlt
    exact ⟨⟨hy1, hm1, hm2, by show 1 ≤ dd + 1; omega,
      by show dd + 1 ≤ daysInMonth y mo; omega⟩, hh, hmin⟩
  · split
    · rename_i hge hmlt
      have hmlt2 : mo < 12 := hmlt
      refine ⟨⟨hy1, by show 1 ≤ mo + 1; omega, by show mo + 1 ≤ 12; omega,
        by show 1 ≤ 1; omega, ?_⟩, hh, hmin⟩
      show 1 ≤ daysInMonth y (mo + 1)
      exact le_trans (by omega)
        (monthLen_bounds (isLeap y) (mo + 1) (by omega) (by omega)).1
    · refine ⟨⟨by show 1 ≤ y + 1; omega, by show (1:Nat) ≤ 1; omega,
        by show (1:Nat) ≤ 12; omega, by show (1:Nat) ≤ 1; omega, ?_⟩, hh, hmin⟩
      show 1 ≤ daysInMonth (y + 1) 1
      unfold daysInMonth
      cases isLeap (y + 1) <;> decide

theorem iterate_nextDay_dateOnly {d : DateTime} (h : d.dateOnly) (i : Nat) :
    (nextDay^[i] d).dateOnly := by
  induction i with
  | zero => simpa using h
  | succ i ih =>
    rw [Function.iterate_succ_apply']
    exact nextDay_dateOnly ih

theorem iterate_nextDay_toOrdinal {d : DateTime} (h : d.dateOnly) (i : Nat) :
    (nextDay^[i] d).toOrdinal = d.toOrdinal + i := by
  induction i with
  | zero => simp
  | succ i ih =>
    rw [Function.iterate_succ_apply', toOrdinal_nextDay (iterate_nextDay_dateOnly h i).1]
    omega

theorem year_ord_mono {y1 y2 : Nat} (h : y1 ≤ y2) :
    365 * y1 + leapsBefore y1 ≤ 365 * y2 + leapsBefore y2 := by
  induction y2 with
  | zero =>
    have hz : y1 = 0 := by omega
    subst hz
    omega
  | succ k ih =>
    rcases Nat.lt_or_ge y1 (k + 1) with hlt | hge
    · have := ih (by omega)
      have hs := leapsBefore_succ k
      cases hL : isLeap (k + 1) <;> rw [hL] at hs <;> simp at hs <;> omega
    · have heq : y1 = k + 1 := by omega
      subst heq
      omega

theorem dt_lt_toOrdinal {a b : DateTime} (ha : a.dateOnly) (hb : b.dateOnly)
    (h : DateTime.lt a b) : a.toOrdinal < b.toOrdinal := by
  obtain ⟨⟨hay, ham1, ham2, had1, had2⟩, hah, hami⟩ := ha
  obtain ⟨⟨hby, hbm1, hbm2, hbd1, hbd2⟩, hbh, hbmi⟩ := hb
  unfold daysInMonth at had2 hbd2
  unfold DateTime.lt at h
  rcases h with hyy | ⟨hyeq, hmm | ⟨hmeq, hdd | ⟨hdeq, hrest⟩⟩⟩
  · -- a.year < b.year
    have hstep : daysBeforeMonth (isLeap a.year) a.month + a.day ≤
        daysBeforeMonth (isLeap a.year) (a.month + 1) := by
      rw [dbm_succ (isLeap a.year) ham1]; omega
    have hcap : daysBeforeMonth (isLeap a.year) (a.month + 1) ≤
        daysBeforeMonth (isLeap a.year) 13 := dbm_mono _ (by omega) (by omega)
    have h13 := dbm_13 (isLeap a.year)
    have hls := leapsBefore_succ (a.year - 1)
    rw [show a.year - 1 + 1 = a.year by omega] at hls
    have hmono := year_ord_mono (show a.year ≤ b.year - 1 by omega)
    simp only [DateTime.toOrdinal]
    cases hL : isLeap a.year <;> rw [hL] at hstep hcap h13 hls <;>
      simp at h13 hls <;> omega
  · -- same year, a.month < b.month
    rw [hyeq] at had2
    have hstep : daysBeforeMonth (isLeap b.year) a.month + a.day ≤
        daysBeforeMonth (isLeap b.year) (a.month + 1) := by
      rw [dbm_succ (isLeap b.year) ham1]; omega
    have hcap : daysBeforeMonth (isLeap b.year) (a.month + 1) ≤
        daysBeforeMonth (isLeap b.year) b.month := dbm_mono _ (by omega) (by omega)
    simp only [DateTime.toOrdinal, hyeq]
    omega
  · -- same year and month, a.day < b.day
    simp only [DateTime.toOrdinal, hyeq, hmeq]
    omega
  · -- time-of-day comparison is impossible for date-only instants
    omega

theorem dt_trichotomy (a b : DateTime) :
    DateTime.lt a b ∨ a = b ∨ DateTime.lt b a := by
  rcases a with ⟨y1, m1, d1, h1, mi1⟩
  rcases b with ⟨y2, m2, d2, h2, mi2⟩
  simp only [DateTime.lt, DateTime.mk.injEq]
  omega

theorem dt_lt_iff_ord {a b : DateTime} (ha : a.dateOnly) (hb : b.dateOnly) :
    DateTime.lt a b ↔ a.toOrdinal < b.toOrdinal := by
  constructor
  · exact dt_lt_toOrdinal ha hb
  · intro h
    rcases dt_trichotomy a b with h1 | h1 | h1
    · exact h1
    · subst h1; omega
    · have := dt_lt_toOrdinal hb ha h1; omega

theorem dt_le_iff_ord {a b : DateTime} (ha : a.dateOnly) (hb : b.dateOnly) :
    DateTime.le a b ↔ a.toOrdinal ≤ b.toOrdinal := by
  unfold DateTime.le
  constructor
  · rintro (h | rfl)
    · exact le_of_lt ((dt_lt_iff_ord ha hb).mp h)
    · exact le_refl _
  · intro h
    rcases dt_trichotomy a b with h1 | h1 | h1
    · exact Or.inl h1
    · exact Or.inr h1
    · have := (dt_lt_iff_ord hb ha).mp h1; omega

theorem dt_ord_inj {a b : DateTime} (ha : a.dateOnly) (hb : b.dateOnly)
    (h : a.toOrdinal = b.toOrdinal) : a = b := by
  rcases dt_trichotomy a b with h1 | h1 | h1
  · have := (dt_lt_iff_ord ha hb).mp h1; omega
  · exact h1
  · have := (dt_lt_iff_ord hb ha).mp h1; omega


theorem dt_lt_asymm {a b : DateTime} (h1 : DateTime.lt a b) (h2 : DateTime.lt b a) :
    False := by
  rcases a with ⟨y1, m1, d1, h1v, mi1⟩
  rcases b with ⟨y2, m2, d2, h2v, mi2⟩
  unfold DateTime.lt at h1 h2
  simp only at h1 h2
  omega

theorem dt_lt_irrefl (a : DateTime) : ¬ DateTime.lt a a := by
  intro h
  exact dt_lt_asymm h h

/-! ## Lemmas: parsing produces valid dates -/

theorem parseDateL_dateOnly {l : List Char} {d : DateTime}
    (h : parseDateL l = some d) : d.dateOnly := by
  simp only [parseDateL] at h
  repeat' split at h
  all_goals first
    | (injection h
       done)
    | (injection h with h2
       subst h2
       rename_i hguard
       exact ⟨hguard, rfl, rfl⟩)

theorem parseDate_dateOnly {s : String} {d : DateTime}
    (h : parseDate s = some d) : d.dateOnly :=
  parseDateL_dateOnly h

/-! ## Lemmas: the itinerary day loop -/

theorem processDay_date {acts : List (String × List (String × String))}
    {cur : DateTime} {td : TravelDay} (h : processDay acts cur = .ok td) :
    td.date = cur := by
  simp only [processDay] at h
  repeat' split at h
  all_goals first
    | (injection h; done)
    | (injection h with h2; subst h2; rfl)

theorem processDay_error {acts : List (String × List (String × String))}
    {cur : DateTime} {e : Err} (h : processDay acts cur = .error e) :
    e = .missingField := by
  simp only [processDay] at h
  repeat' split at h
  all_goals first
    | (injection h; done)
    | (injection h with h2; subst h2; rfl)

theorem buildDays_not_le {acts : List (String × List (String × String))}
    {endD cur : DateTime} {fuel : Nat} (h : ¬ DateTime.le cur endD) :
    buildDays acts endD fuel cur = .ok [] := by
  cases fuel <;> simp [buildDays, h]

theorem buildDays_error {acts : List (String × List (String × String))}
    {endD : DateTime} {fuel : Nat} {cur : DateTime} {e : Err}
    (h : buildDays acts endD fuel cur = .error e) : e = .missingField := by
  induction fuel generalizing cur with
  | zero => cases h
  | succ fuel ih =>
    unfold buildDays at h
    split at h
    · cases hp : processDay acts cur with
      | error e2 =>
        rw [hp] at h
        injection h with h2
        subst h2
        exact processDay_error hp
      | ok td =>
        rw [hp] at h
        cases hrec : buildDays acts endD fuel (nextDay cur) with
        | error e3 =>
          rw [hrec] at h
          injection h with h2
          subst h2
          exact ih hrec
        | ok rest => rw [hrec] at h; cases h
    · cases h

theorem buildDays_ok_mem {acts : List (String × List (String × String))}
    {endD : DateTime} {fuel : Nat} {cur : DateTime} {l : List TravelDay}
    (hb : buildDays acts endD fuel cur = .ok l) :
    ∀ td ∈ l, processDay acts td.date = .ok td := by
  induction fuel generalizing cur l with
  | zero =>
    unfold buildDays at hb
    injection hb with h2
    subst h2
    intro td htd
    cases htd
  | succ fuel ih =>
    unfold buildDays at hb
    split at hb
    · cases hp : processDay acts cur with
      | error e => rw [hp] at hb; cases hb
      | ok td0 =>
        rw [hp] at hb
        cases hrec : buildDays acts endD fuel (nextDay cur) with
        | error e => rw [hrec] at hb; cases hb
        | ok rest =>
          rw [hrec] at hb
          injection hb with h2
          subst h2
          intro td htd
          rcases List.mem_cons.mp htd with rfl | hmem
          · rw [processDay_date hp]
            exact hp
          · exact ih hrec td hmem
    · injection hb with h2
      subst h2
      intro td htd
      cases htd

theorem buildDays_ok_spec {acts : List (String × List (String × String))}
    {endD : DateTime} (hend : endD.dateOnly) :
    ∀ (fuel : Nat) (cur : DateTime) (l : List TravelDay), cur.dateOnly →
      DateTime.le cur endD →
      endD.toOrdinal + 1 - cur.toOrdinal ≤ fuel →
      buildDays acts endD fuel cur = .ok l →
      l.length = endD.toOrdinal + 1 - cur.toOrdinal ∧
        ∀ i (hi : i < l.length),
          processDay acts (nextDay^[i] cur) = .ok (l.get ⟨i, hi⟩) := by
  intro fuel
  induction fuel with
  | zero =>
    intro cur l hcur hle hfuel hb
    have hord := (dt_le_iff_ord hcur hend).mp hle
    omega
  | succ fuel ih =>
    intro cur l hcur hle hfuel hb
    have hord := (dt_le_iff_ord hcur hend).mp hle
    unfold buildDays at hb
    rw [if_pos hle] at hb
    cases hp : processDay acts cur with
    | error e => rw [hp] at hb; cases hb
    | ok td =>
      rw [hp] at hb
      cases hrec : buildDays acts endD fuel (nextDay cur) with
      | error e => rw [hrec] at hb; cases hb
      | ok rest =>
        rw [hrec] at hb
        injection hb with hb2
        subst hb2
        have hnd : (nextDay cur).dateOnly := nextDay_dateOnly hcur
        have hndord : (nextDay cur).toOrdinal = cur.toOrdinal + 1 :=
          toOrdinal_nextDay hcur.1
        by_cases hle2 : DateTime.le (nextDay cur) endD
        · have hord2 := (dt_le_iff_ord hnd hend).mp hle2
          obtain ⟨hlen, hidx⟩ := ih (nextDay cur) rest hnd hle2 (by omega) hrec
          constructor
          · simp only [List.length_cons]
            omega
          · intro i hi
            cases i with
            | zero => simpa using hp
            | succ i =>
              have hi2 : i < rest.length := by
                simp only [List.length_cons] at hi
                omega
              have hstep := hidx i hi2
              rw [Function.iterate_succ_apply]
              simpa using hstep
        · have hrec0 : buildDays acts endD fuel (nextDay cur) = .ok [] :=
            buildDays_not_le hle2
          rw [hrec0] at hrec
          injection hrec with h3
          subst h3
          have hord2 : ¬ (nextDay cur).toOrdinal ≤ endD.toOrdinal := fun hc =>
            hle2 ((dt_le_iff_ord hnd hend).mpr hc)
          constructor
          · simp only [List.length_cons, List.length_nil]
            omega
          · intro i hi
            simp only [List.length_cons, List.length_nil] at hi
            have hi0 : i = 0 := by omega
            subst hi0
            simpa using hp

/-! ## Claims C4-C7: the itinerary builder -/

theorem processDay_default {acts : List (String × List (String × String))}
    {cur : DateTime} {td : TravelDay}
    (hlook : acts.lookup (formatDate cur) = none)
    (h : processDay acts cur = .ok td) :
    td = { date := cur, morning := "Free time", afternoon := "Free time",
           evening := "Free time", notes := none } := by
  have h1 : List.lookup "morning" defaultActivities = some "Free time" := rfl
  have h2 : List.lookup "afternoon" defaultActivities = some "Free time" := rfl
  have h3 : List.lookup "evening" defaultActivities = some "Free time" := rfl
  have h4 : List.lookup "notes" defaultActivities = none := rfl
  simp only [processDay, hlook, Option.getD_none, h1, h2, h3, h4] at h
  injection h with h5
  exact h5.symm

/-- C4: for every start date S and end date E (both parsing in the
date-only format) with S ≤ E, a successful `create_travel_itinerary` call
returns an itinerary whose days list has exactly `(E−S).days + 1` entries
(ordinal difference plus one), the i-th entry (zero-based) having date
S plus i days — hence the list is chronological. -/
theorem claim_C4 (s : AgentState) (dest sdt edt : String)
    (acts : List (String × List (String × String)))
    (hi fi : List (String × String)) (S E : DateTime) (it : TravelItinerary)
    (s2 : AgentState)
    (hS : parseDate sdt = some S) (hE : parseDate edt = some E)
    (hle : DateTime.le S E)
    (hok : create_travel_itinerary s dest sdt edt acts hi fi = (.ok it, s2)) :
    it.days.length = E.toOrdinal - S.toOrdinal + 1 ∧
      ∀ i (hilt : i < it.days.length),
        (it.days.get ⟨i, hilt⟩).date = nextDay^[i] S := by
  have hSd : S.dateOnly := parseDate_dateOnly hS
  have hEd : E.dateOnly := parseDate_dateOnly hE
  have hord := (dt_le_iff_ord hSd hEd).mp hle
  simp only [create_travel_itinerary, hS, hE] at hok
  cases hb : buildDays acts E (E.toOrdinal + 1) S with
  | error e =>
    rw [hb] at hok
    simp at hok
  | ok days =>
    rw [hb] at hok
    simp only [Prod.mk.injEq] at hok
    injection hok.1 with hit
    subst hit
    obtain ⟨hlen, hidx⟩ :=
      buildDays_ok_spec hEd (E.toOrdinal + 1) S days hSd hle (by omega) hb
    refine ⟨?_, ?_⟩
    · show days.length = E.toOrdinal - S.toOrdinal + 1
      omega
    · intro i hilt
      have hilt2 : i < days.length := hilt
      show (days.get ⟨i, hilt2⟩).date = nextDay^[i] S
      exact processDay_date (hidx i hilt2)

theorem claim_C4_witness :
    ∃ it s2,
      create_travel_itinerary (initAgent "u") "NY" "2025-03-15" "2025-03-17"
        [] [] [] = (.ok it, s2) ∧ it.days.length = 3 := by
  refine ⟨_, _, rfl, ?_⟩
  exact (claim_C4 (initAgent "u") "NY" "2025-03-15" "2025-03-17" [] [] []
    ⟨2025, 3, 15, 0, 0⟩ ⟨2025, 3, 17, 0, 0⟩ _ _
    (by decide) (by decide) (by decide) rfl).1.trans (by decide)

/-- C5: every produced day whose date has no entry in the activities
override map (keyed by the date formatted as `"YYYY-MM-DD"`) has morning,
afternoon and evening all equal to the literal `"Free time"` and no
notes. -/
theorem claim_C5 (s : AgentState) (dest sdt edt : String)
    (acts : List (String × List (String × String)))
    (hi fi : List (String × String)) (it : TravelItinerary) (s2 : AgentState)
    (hok : create_travel_itinerary s dest sdt edt acts hi fi = (.ok it, s2)) :
    ∀ td ∈ it.days, acts.lookup (formatDate td.date) = none →
      td.morning = "Free time" ∧ td.afternoon = "Free time" ∧
        td.evening = "Free time" ∧ td.notes = none := by
  cases hS : parseDate sdt with
  | none =>
    simp only [create_travel_itinerary, hS] at hok
    simp at hok
  | some S =>
    cases hE : parseDate edt with
    | none =>
      simp only [create_travel_itinerary, hS, hE] at hok
      simp at hok
    | some E =>
      simp only [create_travel_itinerary, hS, hE] at hok
      cases hb : buildDays acts E (E.toOrdinal + 1) S with
      | error e =>
        rw [hb] at hok
        simp at hok
      | ok days =>
        rw [hb] at hok
        simp only [Prod.mk.injEq] at hok
        injection hok.1 with hit
        subst hit
        intro td htd hlook
        have hmem : processDay acts td.date = .ok td :=
          buildDays_ok_mem hb td htd
        have heq := processDay_default hlook hmem
        rw [heq]
        exact ⟨rfl, rfl, rfl, rfl⟩

theorem claim_C5_witness :
    ∃ it s2,
      create_travel_itinerary (initAgent "u") "P" "2025-03-15" "2025-03-16"
        [] [] [] = (.ok it, s2) ∧
      ∀ td ∈ it.days, td.morning = "Free time" ∧ td.afternoon = "Free time" ∧
        td.evening = "Free time" ∧ td.notes = none := by
  refine ⟨_, _, rfl, ?_⟩
  intro td htd
  exact claim_C5 (initAgent "u") "P" "2025-03-15" "2025-03-16" [] [] [] _ _
    rfl td htd (by simp)

/-- C6: whenever some date inside the itinerary range has an override entry
that omits at least one of the required morning/afternoon/evening fields,
`create_travel_itinerary` fails with the missing-field error. -/
theorem claim_C6 (s : AgentState) (dest sdt edt : String)
    (acts : List (String × List (String × String)))
    (hi fi : List (String × String)) (S E dt : DateTime)
    (entry : List (String × String))
    (hS : parseDate sdt = some S) (hE : parseDate edt = some E)
    (hdt : dt.dateOnly) (h1 : DateTime.le S dt) (h2 : DateTime.le dt E)
    (hfound : acts.lookup (formatDate dt) = some entry)
    (hmiss : entry.lookup "morning" = none ∨ entry.lookup "afternoon" = none ∨
      entry.lookup "evening" = none) :
    (create_travel_itinerary s dest sdt edt acts hi fi).1 =
      .error .missingField := by
  have hSd : S.dateOnly := parseDate_dateOnly hS
  have hEd : E.dateOnly := parseDate_dateOnly hE
  have hord1 := (dt_le_iff_ord hSd hdt).mp h1
  have hord2 := (dt_le_iff_ord hdt hEd).mp h2
  have hle : DateTime.le S E := (dt_le_iff_ord hSd hEd).mpr (by omega)
  have hprocbad : ∀ td, ¬ processDay acts dt = .ok td := by
    intro td hok2
    rcases hmiss with hm | ha | he
    · simp only [processDay, hfound, Option.getD_some, hm] at hok2
      cases hok2
    · cases hmor : entry.lookup "morning" with
      | none =>
        simp only [processDay, hfound, Option.getD_some, hmor] at hok2
        cases hok2
      | some mv =>
        simp only [processDay, hfound, Option.getD_some, hmor, ha] at hok2
        cases hok2
    · cases hmor : entry.lookup "morning" with
      | none =>
        simp only [processDay, hfound, Option.getD_some, hmor] at hok2
        cases hok2
      | some mv =>
        cases haft : entry.lookup "afternoon" with
        | none =>
          simp only [processDay, hfound, Option.getD_some, hmor, haft] at hok2
          cases hok2
        | some av =>
          simp only [processDay, hfound, Option.getD_some, hmor, haft, he] at hok2
          cases hok2
  simp only [create_travel_itinerary, hS, hE]
  cases hb : buildDays acts E (E.toOrdinal + 1) S with
  | error e =>
    have := buildDays_error hb
    subst this
    rfl
  | ok days =>
    exfalso
    obtain ⟨hlen, hidx⟩ :=
      buildDays_ok_spec hEd (E.toOrdinal + 1) S days hSd hle (by omega) hb
    have hi2 : dt.toOrdinal - S.toOrdinal < days.length := by omega
    have hiter : (nextDay^[dt.toOrdinal - S.toOrdinal] S).toOrdinal =
        S.toOrdinal + (dt.toOrdinal - S.toOrdinal) :=
      iterate_nextDay_toOrdinal hSd _
    have hdteq : nextDay^[dt.toOrdinal - S.toOrdinal] S = dt :=
      dt_ord_inj (iterate_nextDay_dateOnly hSd _) hdt (by omega)
    have := hidx (dt.toOrdinal - S.toOrdinal) hi2
    rw [hdteq] at this
    exact hprocbad _ this

theorem claim_C6_witness :
    (create_travel_itinerary (initAgent "u") "NY" "2025-03-15" "2025-03-17"
      [("2025-03-16", [("morning", "x")])] [] []).1 = .error .missingField :=
  claim_C6 (initAgent "u") "NY" "2025-03-15" "2025-03-17"
    [("2025-03-16", [("morning", "x")])] [] []
    ⟨2025, 3, 15, 0, 0⟩ ⟨2025, 3, 17, 0, 0⟩ ⟨2025, 3, 16, 0, 0⟩
    [("morning", "x")]
    (by decide) (by decide) (by decide) (by decide) (by decide)
    (by decide) (by decide)

/-- C7: when the end date parses to a date strictly before the start date,
`create_travel_itinerary` does not fail: it returns and stores an itinerary
whose days list is empty. -/
theorem claim_C7 (s : AgentState) (dest sdt edt : String)
    (acts : List (String × List (String × String)))
    (hi fi : List (String × String)) (S E : DateTime)
    (hS : parseDate sdt = some S) (hE : parseDate edt = some E)
    (hlt : DateTime.lt E S) :
    ∃ it, create_travel_itinerary s dest sdt edt acts hi fi =
        (.ok it, { s with travel_itineraries := s.travel_itineraries ++ [it] }) ∧
      it.days = [] ∧ it.start_date = S ∧ it.end_date = E := by
  have hnle : ¬ DateTime.le S E := by
    intro hc
    rcases hc with hlt2 | rfl
    · exact dt_lt_asymm hlt hlt2
    · exact dt_lt_irrefl S hlt
  refine ⟨⟨dest, S, E, [], hi, fi⟩, ?_, rfl, rfl, rfl⟩
  simp only [create_travel_itinerary, hS, hE, buildDays_not_le hnle]

theorem claim_C7_witness :
    ∃ it,
      create_travel_itinerary (initAgent "u") "NY" "2025-03-17" "2025-03-15"
        [] [] [] =
        (.ok it, { initAgent "u" with travel_itineraries := [it] }) ∧
      it.days = [] ∧ it.start_date = ⟨2025, 3, 17, 0, 0⟩ ∧
        it.end_date = ⟨2025, 3, 15, 0, 0⟩ :=
  claim_C7 (initAgent "u") "NY" "2025-03-17" "2025-03-15" [] [] []
    ⟨2025, 3, 17, 0, 0⟩ ⟨2025, 3, 15, 0, 0⟩
    (by decide) (by decide) (by decide)

/-! ## Lemmas: the task/reminder store -/

theorem add_reminder_tasks (s : AgentState) (a b c : String) :
    (add_reminder s a b c).2.tasks = s.tasks := by
  cases hp : parseDateTime b <;> simp [add_reminder, hp]

theorem create_itin_tasks (s : AgentState) (dest sdt edt : String)
    (acts : List (String × List (String × String)))
    (hi fi : List (String × String)) :
    (create_travel_itinerary s dest sdt edt acts hi fi).2.tasks = s.tasks := by
  cases hS : parseDate sdt with
  | none => simp [create_travel_itinerary, hS]
  | some S =>
    cases hE : parseDate edt with
    | none => simp [create_travel_itinerary, hS, hE]
    | some E =>
      cases hb : buildDays acts E (E.toOrdinal + 1) S <;>
        simp [create_travel_itinerary, hS, hE, hb]

theorem addRemindersLoop_state (tid title dd : String) :
    ∀ (rts : List String) (s : AgentState),
      ∃ rs, (addRemindersLoop s tid title dd rts).2 =
        { s with reminders := s.reminders ++ rs } := by
  intro rts
  induction rts with
  | nil =>
    intro s
    exact ⟨[], by simp [addRemindersLoop]⟩
  | cons rt rest ih =>
    intro s
    cases hp : parseDateTime rt with
    | none =>
      refine ⟨[], ?_⟩
      simp [addRemindersLoop, add_reminder, hp]
    | some dt =>
      obtain ⟨rs2, hrs2⟩ := ih { s with reminders := s.reminders ++
        [⟨tid, dt, false, "Reminder: " ++ title ++ " is due " ++ dd⟩] }
      refine ⟨⟨tid, dt, false, "Reminder: " ++ title ++ " is due " ++ dd⟩ :: rs2, ?_⟩
      simp only [addRemindersLoop, add_reminder, hp]
      cases hloop : addRemindersLoop { s with reminders := s.reminders ++
          [⟨tid, dt, false, "Reminder: " ++ title ++ " is due " ++ dd⟩] }
          tid title dd rest with
      | mk res s3 =>
        rw [hloop] at hrs2
        simp only at hrs2
        cases res <;> simp_all [List.append_assoc]

theorem addRemindersLoop_ok (tid title dd : String) :
    ∀ (rts : List String) (s : AgentState),
      (∀ rt ∈ rts, parseDateTime rt ≠ none) →
      ∃ rs, addRemindersLoop s tid title dd rts =
          (.ok rs, { s with reminders := s.reminders ++ rs }) ∧
        rs.length = rts.length := by
  intro rts
  induction rts with
  | nil =>
    intro s h
    exact ⟨[], by simp [addRemindersLoop], rfl⟩
  | cons rt rest ih =>
    intro s h
    cases hp : parseDateTime rt with
    | none => exact absurd hp (h rt (by simp))
    | some dt =>
      obtain ⟨rs2, hrs2, hlen⟩ := ih { s with reminders := s.reminders ++
        [⟨tid, dt, false, "Reminder: " ++ title ++ " is due " ++ dd⟩] }
        (fun x hx => h x (by simp [hx]))
      refine ⟨⟨tid, dt, false, "Reminder: " ++ title ++ " is due " ++ dd⟩ :: rs2,
        ?_, by simp [hlen]⟩
      simp only [addRemindersLoop, add_reminder, hp, hrs2]
      simp [List.append_assoc]

theorem create_task_shape (s : AgentState) (title desc due prio : String)
    (rts : List String) :
    (∃ e, (create_task_with_reminders s title desc due prio rts).1 = .error e ∧
      (create_task_with_reminders s title desc due prio rts).2.tasks = s.tasks) ∨
    (∃ t, (create_task_with_reminders s title desc due prio rts).1 = .ok t ∧
      (create_task_with_reminders s title desc due prio rts).2.tasks =
        s.tasks ++ [t] ∧
      t.id = "task_" ++ toString (s.tasks.length + 1)) := by
  cases hp : parseDateTime due with
  | none =>
    left
    exact ⟨.formatError, by simp [create_task_with_reminders, hp],
      by simp [create_task_with_reminders, hp]⟩
  | some dobj =>
    obtain ⟨rs, hrs⟩ := addRemindersLoop_state
      ("task_" ++ toString (s.tasks.length + 1)) title due rts s
    simp only [create_task_with_reminders, hp]
    cases hloop : addRemindersLoop s ("task_" ++ toString (s.tasks.length + 1))
        title due rts with
    | mk res s1 =>
      rw [hloop] at hrs
      simp only at hrs
      cases res with
      | error e2 =>
        left
        refine ⟨e2, by simp [hloop], ?_⟩
        simp only [hloop]
        show s1.tasks = s.tasks
        rw [hrs]
      | ok rms =>
        cases hpr : parsePriority prio with
        | none =>
          left
          refine ⟨.invalidPriority, ?_, ?_⟩
          · simp [hloop, hpr]
          · simp only [hloop, hpr]
            show s1.tasks = s.tasks
            rw [hrs]
        | some p =>
          right
          refine ⟨⟨"task_" ++ toString (s.tasks.length + 1), title, desc, dobj,
            p, .todo, rms⟩, ?_, ?_, rfl⟩
          · simp [hloop, hpr]
          · simp only [hloop, hpr]
            show s1.tasks ++ [_] = s.tasks ++ [_]
            rw [hrs]

/-! ## Claims C1-C3: the task/reminder store -/

theorem claim_C1_counterexample :
    (create_task_with_reminders (initAgent "John") "T" "D" "2025-02-15 14:00"
      "URGENT" ["2025-02-14 10:00"]).1 = .error .invalidPriority ∧
    ¬ (create_task_with_reminders (initAgent "John") "T" "D" "2025-02-15 14:00"
      "URGENT" ["2025-02-14 10:00"]).2.reminders = (initAgent "John").reminders := by
  constructor
  · rfl
  · decide

/-- C1 (amended): the task list is never appended to on failure, and a bad
due-date text mutates nothing; but the reminder list is not protected: when
the due date and all reminder times parse and the priority name is
unrecognized, the call fails with `InvalidPriorityError` while the
freshly-appended reminders (one per reminder time) remain in the store. -/
theorem claim_C1_amended (s : AgentState) (title desc due prio : String)
    (rts : List String) :
    (∀ e, (create_task_with_reminders s title desc due prio rts).1 = .error e →
      (create_task_with_reminders s title desc due prio rts).2.tasks = s.tasks) ∧
    (parseDateTime due = none →
      create_task_with_reminders s title desc due prio rts =
        (.error .formatError, s)) ∧
    (parseDateTime due ≠ none → (∀ rt ∈ rts, parseDateTime rt ≠ none) →
      parsePriority prio = none →
      ∃ rs, create_task_with_reminders s title desc due prio rts =
          (.error .invalidPriority, { s with reminders := s.reminders ++ rs }) ∧
        rs.length = rts.length) := by
  refine ⟨?_, ?_, ?_⟩
  · intro e he
    rcases create_task_shape s title desc due prio rts with
      ⟨e2, h1, h2⟩ | ⟨t, h1, h2, h3⟩
    · exact h2
    · rw [he] at h1
      cases h1
  · intro hp
    simp [create_task_with_reminders, hp]
  · intro hdue hrts hpr
    cases hp : parseDateTime due with
    | none => exact absurd hp hdue
    | some dobj =>
      obtain ⟨rs, hok, hlen⟩ := addRemindersLoop_ok
        ("task_" ++ toString (s.tasks.length + 1)) title due rts s hrts
      refine ⟨rs, ?_, hlen⟩
      simp [create_task_with_reminders, hp, hok, hpr]

theorem claim_C1_amended_witness :
    ∃ rs, create_task_with_reminders (initAgent "John") "T" "D"
        "2025-02-15 14:00" "URGENT" ["2025-02-14 10:00"] =
        (.error .invalidPriority,
          { initAgent "John" with
            reminders := (initAgent "John").reminders ++ rs }) ∧
      rs.length = 1 :=
  (claim_C1_amended (initAgent "John") "T" "D" "2025-02-15 14:00" "URGENT"
    ["2025-02-14 10:00"]).2.2 (by decide) (by decide) (by decide)

/-- C2: `create_task_with_reminders` resolves the priority name
case-insensitively (the whole call depends on the name only through its
upper-casing; names upper-casing to HIGH/MEDIUM/LOW produce tasks with the
corresponding priority) and fails with `InvalidPriorityError` for every
name matching no enum member. -/
theorem claim_C2 (s : AgentState) (title desc due p : String)
    (rts : List String) (hdue : parseDateTime due ≠ none)
    (hrts : ∀ rt ∈ rts, parseDateTime rt ≠ none) :
    (∀ q : String, strUpper q = strUpper p →
      create_task_with_reminders s title desc due q rts =
        create_task_with_reminders s title desc due p rts) ∧
    (strUpper p = "HIGH" → ∃ t s2,
      create_task_with_reminders s title desc due p rts = (.ok t, s2) ∧
        t.priority = .high) ∧
    (strUpper p = "MEDIUM" → ∃ t s2,
      create_task_with_reminders s title desc due p rts = (.ok t, s2) ∧
        t.priority = .medium) ∧
    (strUpper p = "LOW" → ∃ t s2,
      create_task_with_reminders s title desc due p rts = (.ok t, s2) ∧
        t.priority = .low) ∧
    (strUpper p ≠ "HIGH" → strUpper p ≠ "MEDIUM" → strUpper p ≠ "LOW" →
      (create_task_with_reminders s title desc due p rts).1 =
        .error .invalidPriority) := by
  cases hp : parseDateTime due with
  | none => exact absurd hp hdue
  | some dobj =>
    obtain ⟨rs, hok, hlen⟩ := addRemindersLoop_ok
      ("task_" ++ toString (s.tasks.length + 1)) title due rts s hrts
    refine ⟨?_, ?_, ?_, ?_, ?_⟩
    · intro q hq
      have hpq : parsePriority q = parsePriority p := by
        simp [parsePriority, hq]
      simp [create_task_with_reminders, hp, hok, hpq]
    · intro hup
      have hpr : parsePriority p = some .high := by simp [parsePriority, hup]
      refine ⟨⟨"task_" ++ toString (s.tasks.length + 1), title, desc, dobj,
        .high, .todo, rs⟩, ⟨s.user_name, s.tasks ++ [⟨"task_" ++
        toString (s.tasks.length + 1), title, desc, dobj, .high, .todo, rs⟩],
        s.reminders ++ rs, s.travel_itineraries⟩, ?_, rfl⟩
      simp [create_task_with_reminders, hp, hok, hpr]
    · intro hup
      have hpr : parsePriority p = some .medium := by simp [parsePriority, hup]
      refine ⟨⟨"task_" ++ toString (s.tasks.length + 1), title, desc, dobj,
        .medium, .todo, rs⟩, ⟨s.user_name, s.tasks ++ [⟨"task_" ++
        toString (s.tasks.length + 1), title, desc, dobj, .medium, .todo, rs⟩],
        s.reminders ++ rs, s.travel_itineraries⟩, ?_, rfl⟩
      simp [create_task_with_reminders, hp, hok, hpr]
    · intro hup
      have hpr : parsePriority p = some .low := by simp [parsePriority, hup]
      refine ⟨⟨"task_" ++ toString (s.tasks.length + 1), title, desc, dobj,
        .low, .todo, rs⟩, ⟨s.user_name, s.tasks ++ [⟨"task_" ++
        toString (s.tasks.length + 1), title, desc, dobj, .low, .todo, rs⟩],
        s.reminders ++ rs, s.travel_itineraries⟩, ?_, rfl⟩
      simp [create_task_with_reminders, hp, hok, hpr]
    · intro h1 h2 h3
      have hpr : parsePriority p = none := by simp [parsePriority, h1, h2, h3]
      simp [create_task_with_reminders, hp, hok, hpr]

theorem claim_C2_witness :
    ∃ t s2,
      create_task_with_reminders (initAgent "u") "T" "D" "2025-02-15 14:00"
        "HiGh" ["2025-02-14 10:00"] = (.ok t, s2) ∧ t.priority = .high :=
  (claim_C2 (initAgent "u") "T" "D" "2025-02-15 14:00" "HiGh"
    ["2025-02-14 10:00"] (by decide) (by decide)).2.1 (by decide)

theorem claim_C3_counterexample :
    c3_s2.tasks.map (fun t => t.id) = ["task_1", "task_2"] ∧
    c3_removed.tasks.map (fun t => t.id) = ["task_2"] ∧
    c3_s3.tasks.map (fun t => t.id) = ["task_2", "task_2"] :=
  ⟨by decide, by decide, by decide⟩

/-- C3 (amended): across every sequence of the store's own operations
(which include no removal), the task list always reads `task_1, task_2, …`
in creation order, so the n-th created task receives identifier `task_n`
and identifiers never repeat. The identifier is computed from the current
task count, so removing a task from the list would make the next identifier
reuse an existing one. -/
theorem claim_C3_amended (u : String) (ops : List AgentOp) :
    (runOps (initAgent u) ops).tasks.map (fun t => t.id) =
      (List.range (runOps (initAgent u) ops).tasks.length).map
        (fun i => "task_" ++ toString (i + 1)) := by
  have hstep : ∀ (s : AgentState),
      s.tasks.map (fun t => t.id) =
        (List.range s.tasks.length).map (fun i => "task_" ++ toString (i + 1)) →
      ∀ ops2 : List AgentOp,
        (runOps s ops2).tasks.map (fun t => t.id) =
          (List.range (runOps s ops2).tasks.length).map
            (fun i => "task_" ++ toString (i + 1)) := by
    intro s hs ops2
    induction ops2 generalizing s with
    | nil => simpa [runOps] using hs
    | cons op rest ih =>
      simp only [runOps]
      apply ih
      cases op with
      | addReminder a b c =>
        have h := add_reminder_tasks s a b c
        simp only [applyOp]
        rw [h]
        exact hs
      | createTask a b c d e =>
        rcases create_task_shape s a b c d e with
          ⟨e1, h1, h2⟩ | ⟨t, h1, h2, h3⟩
        · simp only [applyOp]
          rw [h2]
          exact hs
        · simp only [applyOp]
          rw [h2]
          simp only [List.map_append, List.map_cons, List.map_nil,
            List.length_append, List.length_cons, List.length_nil,
            Nat.zero_add]
          rw [hs, h3, List.range_succ, List.map_append]
          rfl
      | createItinerary a b c d e f =>
        have h := create_itin_tasks s a b c d e f
        simp only [applyOp]
        rw [h]
        exact hs
      | queryUpcoming now =>
        simp only [applyOp, get_upcoming_reminders]
        exact hs
  exact hstep (initAgent u) (by simp [initAgent]) ops

/-! ## Claims C8 and C10: the reminder query engine -/

theorem filter_orderedInsert (p : UpRecord → Bool)
    (hp : ∀ a b, p a = true → p b = true → recLE a b)
    (x : UpRecord) (L : List UpRecord) :
    (List.orderedInsert recLE x L).filter p =
      if p x then x :: L.filter p else L.filter p := by
  induction L with
  | nil => simp [List.orderedInsert, List.filter_cons]
  | cons b L ih =>
    simp only [List.orderedInsert]
    by_cases hxb : recLE x b
    · rw [if_pos hxb]
      cases hpx : p x <;> simp [List.filter_cons, hpx]
    · rw [if_neg hxb]
      cases hpb : p b with
      | true =>
        have hpx : p x = false := by
          cases hpx2 : p x with
          | true => exact absurd (hp x b hpx2 hpb) hxb
          | false => rfl
        simp [List.filter_cons, hpb, hpx, ih]
      | false =>
        cases hpx : p x <;> simp [List.filter_cons, hpb, hpx, ih]

theorem filter_insertionSort (p : UpRecord → Bool)
    (hp : ∀ a b, p a = true → p b = true → recLE a b) (l : List UpRecord) :
    (List.insertionSort recLE l).filter p = l.filter p := by
  induction l with
  | nil => rfl
  | cons x l ih =>
    simp only [List.insertionSort]
    rw [filter_orderedInsert p hp]
    cases hpx : p x <;> simp [List.filter_cons, hpx, ih]

/-- C8: every record returned by `get_upcoming_reminders` comes from a
stored reminder that is unsent and strictly in the future and whose task
identifier resolves (by first match) to an existing task — reminders with
no matching task are dropped without error; the output is sorted
non-decreasingly by time; and records with equal times appear exactly in
the order the underlying reminders were inserted (stable sort). -/
theorem claim_C8 (s : AgentState) (now : DateTime) :
    (∀ rec ∈ (get_upcoming_reminders s now).1,
      ∃ r ∈ s.reminders, ∃ t,
        s.tasks.find? (fun tk => tk.id == r.task_id) = some t ∧ t ∈ s.tasks ∧
        r.notification_sent = false ∧ DateTime.lt now r.reminder_time ∧
        rec = ⟨r.reminder_time, t.title, r.message⟩) ∧
    (get_upcoming_reminders s now).1.Pairwise recLE ∧
    (∀ tm : DateTime,
      (get_upcoming_reminders s now).1.filter (fun rec => rec.time == tm) =
        (upcomingUnsorted s now).filter (fun rec => rec.time == tm)) := by
  refine ⟨?_, ?_, ?_⟩
  · intro rec hrec
    have hmem : rec ∈ upcomingUnsorted s now :=
      (List.perm_insertionSort recLE (upcomingUnsorted s now)).subset hrec
    simp only [upcomingUnsorted, List.mem_filterMap] at hmem
    obtain ⟨r, hr, hfr⟩ := hmem
    split at hfr
    · rename_i hcond
      cases hft : s.tasks.find? (fun tk => tk.id == r.task_id) with
      | none => rw [hft] at hfr; cases hfr
      | some t =>
        rw [hft] at hfr
        injection hfr with hrec2
        exact ⟨r, hr, t, hft, List.mem_of_find?_eq_some hft, hcond.1,
          hcond.2, hrec2.symm⟩
    · cases hfr
  · exact List.sorted_insertionSort recLE (upcomingUnsorted s now)
  · intro tm
    refine filter_insertionSort _ ?_ _
    intro a b ha hb
    have h1 : a.time = tm := by simpa using ha
    have h2 : b.time = tm := by simpa using hb
    unfold recLE
    rw [h1, h2]
    exact Or.inr rfl

theorem claim_C8_witness :
    ∃ r ∈ ((create_task_with_reminders (initAgent "u") "T" "D"
        "2025-02-15 14:00" "HIGH" ["2025-02-14 10:00"]).2).reminders, ∃ t,
      ((create_task_with_reminders (initAgent "u") "T" "D" "2025-02-15 14:00"
        "HIGH" ["2025-02-14 10:00"]).2).tasks.find?
          (fun tk => tk.id == r.task_id) = some t ∧
      t ∈ ((create_task_with_reminders (initAgent "u") "T" "D"
        "2025-02-15 14:00" "HIGH" ["2025-02-14 10:00"]).2).tasks ∧
      r.notification_sent = false ∧
      DateTime.lt ⟨2025, 2, 14, 0, 0⟩ r.reminder_time ∧
      (⟨⟨2025, 2, 14, 10, 0⟩, "T", "Reminder: T is due 2025-02-15 14:00"⟩ :
          UpRecord) =
        ⟨r.reminder_time, t.title, r.message⟩ :=
  (claim_C8 ((create_task_with_reminders (initAgent "u") "T" "D"
      "2025-02-15 14:00" "HIGH" ["2025-02-14 10:00"]).2)
    ⟨2025, 2, 14, 0, 0⟩).1
    ⟨⟨2025, 2, 14, 10, 0⟩, "T", "Reminder: T is due 2025-02-15 14:00"⟩
    (by decide)

/-- C10: `get_upcoming_reminders` is a pure query: it leaves the task list,
the reminder list (hence every notification flag) and the itinerary list —
the whole agent state — exactly unchanged. -/
theorem claim_C10 (s : AgentState) (now : DateTime) :
    (get_upcoming_reminders s now).2.tasks = s.tasks ∧
    (get_upcoming_reminders s now).2.reminders = s.reminders ∧
    (get_upcoming_reminders s now).2.travel_itineraries =
      s.travel_itineraries ∧
    (get_upcoming_reminders s now).2 = s :=
  ⟨rfl, rfl, rfl, rfl⟩

end PersonalAgent
